import Mathlib

/-!
Verification of the pyrsia node's retrieval cascade
(`src/docker/v2/handlers/blobs.rs`), its blob-identifier decoding, and the
mdns discovery handling of the recipe behaviour
(`pyrsia-node/src/p2p_recipes.rs`), against the repository's specification.

Strings are embedded as lists of characters, byte sequences as lists of
natural numbers.  Rust `unwrap` panics are embedded as `Option.none` results,
fallible calls as `Except`.  The artifact manager (`get_artifact`,
`put_artifact`, `get_space_available`) and the p2p client are repository
components whose code is not part of the handler sources; they are modelled
from the specification, as marked on each definition.
-/

namespace Pyrsia

abbrev Bytes := List Nat
abbrev Digest := List Nat
abbrev PeerId := Nat
abbrev Str := List Char

/-- Association-list lookup, keys compared by decidable equality. -/
def alookup {α β : Type} [DecidableEq α] : List (α × β) → α → Option β
  | [], _ => none
  | (k, v) :: rest, key => if k = key then some v else alookup rest key

/-- Association-list insert-or-replace. -/
def aupsert {α β : Type} [DecidableEq α] : List (α × β) → α → β → List (α × β)
  | [], key, v => [(key, v)]
  | (k, w) :: rest, key, v =>
    if k = key then (key, v) :: rest else (k, w) :: aupsert rest key v

/-- Association-list removal of a key. -/
def aremove {α β : Type} [DecidableEq α] : List (α × β) → α → List (α × β)
  | [], _ => []
  | (k, w) :: rest, key =>
    if k = key then aremove rest key else (k, w) :: aremove rest key

theorem alookup_aupsert_self {α β : Type} [DecidableEq α]
    (m : List (α × β)) (key : α) (v : β) : alookup (aupsert m key v) key = some v := by
  induction m with
  | nil => simp [aupsert, alookup]
  | cons hd tl ih =>
    obtain ⟨k, w⟩ := hd
    by_cases hk : k = key
    · simp [aupsert, hk, alookup]
    · simp [aupsert, hk, alookup, ih]

theorem alookup_aremove_self {α β : Type} [DecidableEq α]
    (m : List (α × β)) (key : α) : alookup (aremove m key) key = none := by
  induction m with
  | nil => simp [aremove, alookup]
  | cons hd tl ih =>
    obtain ⟨k, w⟩ := hd
    by_cases hk : k = key
    · simp [aremove, hk, ih]
    · simp [aremove, hk, alookup, ih]

/-- Value of one hexadecimal character, as decoded by the `hex` crate. -/
def hexDigitVal (c : Char) : Option Nat :=
  if '0' ≤ c ∧ c ≤ '9' then some (c.toNat - '0'.toNat)
  else if 'a' ≤ c ∧ c ≤ 'f' then some (c.toNat - 'a'.toNat + 10)
  else if 'A' ≤ c ∧ c ≤ 'F' then some (c.toNat - 'A'.toNat + 10)
  else none

/-- `hex::decode`: succeeds on an even number of hex characters, pairing them
into bytes; fails otherwise. -/
def hexDecode : Str → Option Bytes
  | [] => some []
  | [_] => none
  | c1 :: c2 :: rest =>
    match hexDigitVal c1, hexDigitVal c2, hexDecode rest with
    | some h, some l, some tl => some ((16 * h + l) :: tl)
    | _, _, _ => none

/-- Rust `str::get(7..)` on an ASCII string: the suffix after the first seven
characters when the string is at least that long, `none` otherwise. -/
def strFrom7 (s : Str) : Option Str :=
  if 7 ≤ s.length then some (s.drop 7) else none

/-- Blob-identifier decoding on the read path, `get_blob` line 44:
`hex::decode(&hash.get(7..).unwrap()).unwrap()`; `none` embeds a panic. -/
def decodedHashGet (hash : Str) : Option Digest :=
  match strFrom7 hash with
  | some t => hexDecode t
  | none => none

/-- Blob-identifier decoding on the write path, `store_blob_in_filesystem`
line 131: `hex::decode(&digest.get(7..).unwrap()).unwrap()`. -/
def decodedHashStore (digest : Str) : Option Digest :=
  match strFrom7 digest with
  | some t => hexDecode t
  | none => none

/-- Errors of the artifact store, from the specification's taxonomy. -/
inductive ArtErr
  | integrityMismatch
  | quotaExceeded
  | notFoundLocally
  deriving DecidableEq

/-- Content-addressed local blob storage with a space budget. -/
structure ArtifactStore where
  blobs : List (Digest × Bytes)
  availableSpace : Nat
  deriving DecidableEq

/-- Modelled from the spec: `get(hash)` of the artifact manager (its code is
not among the handler sources) returns `NotFoundLocally` if absent, otherwise
exactly the bytes previously verified under that hash. -/
def get_artifact (st : ArtifactStore) (key : Digest) : Except ArtErr Bytes :=
  match alookup st.blobs key with
  | some b => Except.ok b
  | none => Except.error ArtErr.notFoundLocally

/-- Modelled from the spec: `put(hash, content)` of the artifact manager
(its code is not among the handler sources) succeeds idempotently with
`false` when the hash is already stored, rejects `IntegrityMismatch` when the
recomputed digest disagrees with the hash, rejects `QuotaExceeded` when the
content would exceed the available space, and otherwise commits and returns
`true`.  The digest recomputation is abstracted by `digestOf`. -/
def put_artifact (digestOf : Bytes → Digest) (st : ArtifactStore)
    (key : Digest) (content : Bytes) : Except ArtErr (Bool × ArtifactStore) :=
  match alookup st.blobs key with
  | some _ => Except.ok (false, st)
  | none =>
    if digestOf content ≠ key then Except.error ArtErr.integrityMismatch
    else if st.availableSpace < content.length then Except.error ArtErr.quotaExceeded
    else Except.ok (true, ⟨(key, content) :: st.blobs, st.availableSpace - content.length⟩)

/-- Modelled from the spec: `available_space()` of the artifact manager,
the current free budget used by `put` and by the handler's own quota check. -/
def get_space_available (st : ArtifactStore) : Nat := st.availableSpace

/-- State visible to `store_blob_in_filesystem`: the artifact store plus the
staging area of upload directories, mapping each upload data file to its
current content. -/
structure FsState where
  store : ArtifactStore
  staging : List (Str × Bytes)
  deriving DecidableEq

/-- `create_upload_directory`: the upload directory path for a repository
name and upload id. -/
def uploadDirectory (name id : Str) : Str :=
  "/tmp/registry/docker/registry/v2/repositories/".toList ++ name
    ++ "/_uploads/".toList ++ id

/-- Content of the staging data file of an upload directory; the file is
opened with `create(true).append(true)`, so a missing file reads as empty. -/
def stagingFile (staging : List (Str × Bytes)) (dir : Str) : Bytes :=
  match alookup staging dir with
  | some b => b
  | none => []

/-- The write loop of `append_to_blob`: copies the remaining bytes to the
file in chunks of at most 4096, accumulating the total number of bytes read. -/
def appendChunks (file : Bytes) (bytes : Bytes) (total : Nat) : Bytes × Nat :=
  match bytes with
  | [] => (file, total)
  | b :: bs =>
    let bytesToRead := min (b :: bs).length 4096
    appendChunks (file ++ (b :: bs).take bytesToRead)
      ((b :: bs).drop bytesToRead) (total + bytesToRead)
  termination_by bytes.length
  decreasing_by simp [List.length_drop]

/-- `append_to_blob`: appends the bytes to the blob file and returns the new
file content together with `(initial_file_length, total_bytes_read)`. -/
def append_to_blob (file : Bytes) (bytes : Bytes) : Bytes × (Nat × Nat) :=
  let initialFileLength := file.length
  let r := appendChunks file bytes 0
  (r.1, (initialFileLength, r.2))

theorem appendChunks_eq_aux : ∀ (n : Nat) (bytes : Bytes), bytes.length ≤ n →
    ∀ file total, appendChunks file bytes total = (file ++ bytes, total + bytes.length) := by
  intro n
  induction n with
  | zero =>
    intro bytes hb file total
    have hnil : bytes = [] := List.eq_nil_of_length_eq_zero (Nat.le_zero.mp hb)
    subst hnil
    simp [appendChunks]
  | succ n ih =>
    intro bytes hb file total
    match bytes with
    | [] => simp [appendChunks]
    | b :: bs =>
      rw [appendChunks]
      have hlen : (b :: bs).length = bs.length + 1 := by simp
      have hlt : ((b :: bs).drop (min (b :: bs).length 4096)).length ≤ n := by
        simp [List.length_drop]
        omega
      rw [ih _ hlt]
      simp [List.length_drop]
      omega

theorem appendChunks_eq (bytes : Bytes) (file : Bytes) (total : Nat) :
    appendChunks file bytes total = (file ++ bytes, total + bytes.length) :=
  appendChunks_eq_aux bytes.length bytes (Nat.le_refl _) file total

theorem append_to_blob_eq (file bytes : Bytes) :
    append_to_blob file bytes = (file ++ bytes, (file.length, bytes.length)) := by
  simp [append_to_blob, appendChunks_eq]

/-- Error type of the handlers, after the `NodeError` conversions: artifact
manager errors arrive via `anyhow`, the quota check produces a custom
message, and `reqwest` transport failures map to their own variant. -/
inductive NodeErr
  | artifact (e : ArtErr)
  | custom (msg : Str)
  | transport
  deriving DecidableEq

/-- `store_blob_in_filesystem`: append the bytes to the staging data file of
the upload directory, reject when the total bytes read exceed the available
space, then decode the digest identifier and hand the staging file to
`put_artifact`; the upload directory is removed only after a successful put.
`none` embeds the panic of the `unwrap`s on the digest identifier. -/
def store_blob_in_filesystem (digestOf : Bytes → Digest) (fs : FsState)
    (name id digest : Str) (bytes : Bytes) :
    Option (Except NodeErr Bool × FsState) :=
  let dir := uploadDirectory name id
  let file0 := stagingFile fs.staging dir
  let appended := append_to_blob file0 bytes
  let fs1 : FsState := ⟨fs.store, aupsert fs.staging dir appended.1⟩
  let availableSpace := get_space_available fs1.store
  if availableSpace < appended.2.2 then
    some (Except.error (NodeErr.custom ("Not enough space left to store artifact".toList)), fs1)
  else
    match decodedHashStore digest with
    | none => none
    | some key =>
      match put_artifact digestOf fs1.store key appended.1 with
      | Except.error e => some (Except.error (NodeErr.artifact e), fs1)
      | Except.ok (pushResult, st2) =>
        some (Except.ok pushResult, ⟨st2, aremove fs1.staging dir⟩)

/-- Network commands observable from the handler code: the p2p client calls
`list_providers`, `request_artifact` and `provide`, and the origin gateway
makes a token request and a blob request. -/
inductive Command
  | getProviders (hash : Str)
  | requestArtifact (peer : PeerId) (hash : Str)
  | provide (hash : Str)
  | originToken (name : Str)
  | originBlob (name : Str) (hash : Str)
  deriving DecidableEq

/-- Modelled from the spec: the p2p client (its code is not among the handler
sources) answers `list_providers` with the best currently known provider set
for a hash, and `request_artifact` with the peer's bytes or an error. -/
structure P2pEnv where
  providers : Str → List PeerId
  peerResponse : PeerId → Str → Except Unit Bytes

/-- The origin registry from the handler's point of view: token acquisition
may fail with a transport error, and the blob request either fails with a
transport error or yields an HTTP status together with the response body. -/
structure OriginEnv where
  tokenResult : Except Unit Str
  blobResponse : Str → Str → Except Unit (Nat × Bytes)

/-- `get_blob_from_docker_hub_with_token`: issue the blob request with the
bearer token, take the body bytes of whatever response arrives (the status is
logged but never branched on) and hand them to `store_blob_in_filesystem`. -/
def get_blob_from_docker_hub_with_token (digestOf : Bytes → Digest)
    (origin : OriginEnv) (fs : FsState) (name hash id token : Str) :
    Option (Except NodeErr Bool × FsState × List Command) :=
  match origin.blobResponse name hash with
  | Except.error _ => some (Except.error NodeErr.transport, fs, [Command.originBlob name hash])
  | Except.ok resp =>
    match store_blob_in_filesystem digestOf fs name id hash resp.2 with
    | none => none
    | some (r, fs2) => some (r, fs2, [Command.originBlob name hash])

/-- `get_blob_from_docker_hub`: acquire an auth token for the repository
name, then fetch the blob with it. -/
def get_blob_from_docker_hub (digestOf : Bytes → Digest) (origin : OriginEnv)
    (fs : FsState) (name hash id : Str) :
    Option (Except NodeErr Bool × FsState × List Command) :=
  match origin.tokenResult with
  | Except.error _ => some (Except.error NodeErr.transport, fs, [Command.originToken name])
  | Except.ok token =>
    match get_blob_from_docker_hub_with_token digestOf origin fs name hash id token with
    | none => none
    | some (r, fs2, cmds) => some (r, fs2, Command.originToken name :: cmds)

/-- `get_blob_from_other_peer`: log the stripped hash (whose `unwrap` panics
on a short identifier, embedded as `none`), request the artifact from the
peer, and on success store it under a fresh upload id; any request or store
failure yields `false`. -/
def get_blob_from_other_peer (digestOf : Bytes → Digest) (p2p : P2pEnv)
    (fs : FsState) (peerId : PeerId) (name hash id : Str) :
    Option (Bool × FsState × List Command) :=
  match strFrom7 hash with
  | none => none
  | some _ =>
    match p2p.peerResponse peerId hash with
    | Except.ok artifact =>
      match store_blob_in_filesystem digestOf fs name id hash artifact with
      | none => none
      | some (Except.ok stored, fs2) =>
        some (stored, fs2, [Command.requestArtifact peerId hash])
      | some (Except.error _, fs2) =>
        some (false, fs2, [Command.requestArtifact peerId hash])
    | Except.error _ => some (false, fs, [Command.requestArtifact peerId hash])

/-- `get_blob_from_network`: list the providers of the hash, try the first
provider if any, and fall back to the origin registry when there is no
provider or the peer attempt did not store the blob. -/
def get_blob_from_network (digestOf : Bytes → Digest) (p2p : P2pEnv)
    (origin : OriginEnv) (fs : FsState) (name hash idPeer idOrigin : Str) :
    Option (Except NodeErr Bool × FsState × List Command) :=
  match p2p.providers hash with
  | peer :: _ =>
    match get_blob_from_other_peer digestOf p2p fs peer name hash idPeer with
    | none => none
    | some (true, fs2, c) => some (Except.ok true, fs2, Command.getProviders hash :: c)
    | some (false, fs2, c) =>
      match get_blob_from_docker_hub digestOf origin fs2 name hash idOrigin with
      | none => none
      | some (r, fs3, c2) =>
        some (r, fs3, Command.getProviders hash :: (c ++ c2))
  | [] =>
    match get_blob_from_docker_hub digestOf origin fs name hash idOrigin with
    | none => none
    | some (r, fs2, c) => some (r, fs2, Command.getProviders hash :: c)

/-- `get_blob`: decode the hash identifier (both `unwrap`s embedded as
`none`), look it up in the artifact manager, on a miss run the network
cascade and re-read the store, and on every successful path finish with a
`provide` command for the hash. -/
def get_blob (digestOf : Bytes → Digest) (p2p : P2pEnv) (origin : OriginEnv)
    (fs : FsState) (name hash idPeer idOrigin : Str) :
    Option (Except NodeErr Bytes × FsState × List Command) :=
  match decodedHashGet hash with
  | none => none
  | some decodedHash =>
    match get_artifact fs.store decodedHash with
    | Except.ok blob => some (Except.ok blob, fs, [Command.provide hash])
    | Except.error _ =>
      match get_blob_from_network digestOf p2p origin fs name hash idPeer idOrigin with
      | none => none
      | some (Except.error e, fs2, c) => some (Except.error e, fs2, c)
      | some (Except.ok true, fs2, c) =>
        match get_artifact fs2.store decodedHash with
        | Except.ok blob => some (Except.ok blob, fs2, c ++ [Command.provide hash])
        | Except.error e => some (Except.error (NodeErr.artifact e), fs2, c)
      | some (Except.ok false, fs2, c) =>
        some (Except.error (NodeErr.custom ("PYRSIA_ARTIFACT_STORAGE_ERROR".toList)), fs2, c)

/-- The mdns events handled by the recipe behaviour. -/
inductive MdnsEvent
  | discovered (l : List (PeerId × Nat))
  | expired (l : List (PeerId × Nat))

/-- The state of the recipe behaviour visible to the mdns handler: the
floodsub broadcast partial view, with set semantics. -/
structure RecipeBehaviour where
  view : List PeerId
  deriving DecidableEq

/-- `Floodsub::add_node_to_partial_view`: adds a peer to the partial view. -/
def addNodeToPartialView (v : List PeerId) (p : PeerId) : List PeerId :=
  if p ∈ v then v else p :: v

/-- `Floodsub::remove_node_from_partial_view`: removes a peer from the
partial view. -/
def removeNodeFromPartialView (v : List PeerId) (p : PeerId) : List PeerId :=
  v.filter (fun q => q ≠ p)

/-- The mdns `inject_event` of `RecipeBehaviour`: discovered peers are added
to the partial view; an expired peer is removed only when the mdns behaviour
no longer knows it (`!self.mdns.has_node(&peer)`). -/
def inject_event (hasNode : PeerId → Bool) (st : RecipeBehaviour)
    (ev : MdnsEvent) : RecipeBehaviour :=
  match ev with
  | MdnsEvent.discovered l =>
    ⟨l.foldl (fun v pa => addNodeToPartialView v pa.1) st.view⟩
  | MdnsEvent.expired l =>
    ⟨l.foldl (fun v pa =>
        if ¬ hasNode pa.1 then removeNodeFromPartialView v pa.1 else v) st.view⟩

/-- C8: decoding a blob identifier made of a 7-character algorithm tag
followed by a hex digest strips exactly the first 7 characters and
hex-decodes the remainder, identically on the read path (`get_blob`) and the
write path (`store_blob_in_filesystem`). -/
theorem blob_id_decoding_consistent (tag rest : Str) (raw : Digest)
    (htag : tag.length = 7) (hhex : hexDecode rest = some raw) :
    decodedHashGet (tag ++ rest) = some raw
    ∧ decodedHashStore (tag ++ rest) = some raw
    ∧ (∀ s : Str, decodedHashGet s = decodedHashStore s) := by
  have hdrop : (tag ++ rest).drop 7 = rest := by
    rw [← htag]
    exact List.drop_left tag rest
  have hlen : 7 ≤ tag.length + rest.length := by omega
  refine ⟨?_, ?_, ?_⟩
  · simp [decodedHashGet, strFrom7, hlen, hdrop, hhex]
  · simp [decodedHashStore, strFrom7, hlen, hdrop, hhex]
  · intro s
    rfl

theorem blob_id_decoding_consistent_witness :
    decodedHashGet ("sha256:".toList ++ "aa".toList) = some [170]
    ∧ decodedHashStore ("sha256:".toList ++ "aa".toList) = some [170]
    ∧ (∀ s : Str, decodedHashGet s = decodedHashStore s) :=
  blob_id_decoding_consistent ("sha256:".toList) ("aa".toList) [170]
    (by decide) (by decide)

/-- C10: on a hash path segment shorter than 7 characters, or one whose
remainder after the 7-character tag is not valid hexadecimal, `get_blob`
panics (the `unwrap`s on prefix stripping and hex decoding), embedded as a
`none` result. -/
theorem get_blob_panics_on_malformed_hash (digestOf : Bytes → Digest)
    (p2p : P2pEnv) (origin : OriginEnv) (fs : FsState)
    (name hash idPeer idOrigin : Str)
    (hbad : hash.length < 7 ∨ hexDecode (hash.drop 7) = none) :
    get_blob digestOf p2p origin fs name hash idPeer idOrigin = none := by
  have hdec : decodedHashGet hash = none := by
    cases hbad with
    | inl h =>
      have h7 : ¬ 7 ≤ hash.length := by omega
      simp [decodedHashGet, strFrom7, h7]
    | inr h =>
      by_cases h7 : 7 ≤ hash.length
      · simp [decodedHashGet, strFrom7, h7, h]
      · simp [decodedHashGet, strFrom7, h7]
  simp [get_blob, hdec]

theorem get_blob_panics_on_malformed_hash_witness :
    get_blob (fun _ => []) ⟨fun _ => [], fun _ _ => Except.error ()⟩
      ⟨Except.error (), fun _ _ => Except.error ()⟩ ⟨⟨[], 0⟩, []⟩
      [] ("sha256".toList) [] [] = none :=
  get_blob_panics_on_malformed_hash (fun _ => [])
    ⟨fun _ => [], fun _ _ => Except.error ()⟩
    ⟨Except.error (), fun _ _ => Except.error ()⟩ ⟨⟨[], 0⟩, []⟩
    [] ("sha256".toList) [] [] (Or.inl (by decide))

/-- C2, counterexample: with the artifact store already holding bytes under
the hash, `get_blob` still issues a `provide` network command after serving
the local hit, so the claim that no network command at all is issued fails. -/
theorem get_blob_local_hit_issues_provide_cex :
    get_blob (fun _ => []) ⟨fun _ => [], fun _ _ => Except.error ()⟩
      ⟨Except.error (), fun _ _ => Except.error ()⟩
      ⟨⟨[([170], [1, 2, 3])], 0⟩, []⟩ [] ("sha256:aa".toList) [] []
      = some (Except.ok [1, 2, 3], ⟨⟨[([170], [1, 2, 3])], 0⟩, []⟩,
          [Command.provide ("sha256:aa".toList)]) := by
  rfl

/-- C2, amended: when the artifact store already contains bytes under the
hash, `get_blob` returns those bytes with the state unchanged and issues no
`GetProviders`, `RequestArtifact` or origin request — but it does issue
exactly one `provide` command for the hash. -/
theorem get_blob_local_hit (digestOf : Bytes → Digest) (p2p : P2pEnv)
    (origin : OriginEnv) (fs : FsState) (name hash idPeer idOrigin : Str)
    (key : Digest) (b : Bytes)
    (hdec : decodedHashGet hash = some key)
    (hhit : alookup fs.store.blobs key = some b) :
    get_blob digestOf p2p origin fs name hash idPeer idOrigin
      = some (Except.ok b, fs, [Command.provide hash]) := by
  simp [get_blob, hdec, get_artifact, hhit]

theorem get_blob_local_hit_witness :
    get_blob (fun _ => []) ⟨fun _ => [], fun _ _ => Except.error ()⟩
      ⟨Except.error (), fun _ _ => Except.error ()⟩
      ⟨⟨[([170], [7])], 5⟩, []⟩ [] ("sha256:aa".toList) [] []
      = some (Except.ok [7], ⟨⟨[([170], [7])], 5⟩, []⟩,
          [Command.provide ("sha256:aa".toList)]) :=
  get_blob_local_hit (fun _ => []) ⟨fun _ => [], fun _ _ => Except.error ()⟩
    ⟨Except.error (), fun _ _ => Except.error ()⟩
    ⟨⟨[([170], [7])], 5⟩, []⟩ [] ("sha256:aa".toList) [] [] [170] [7]
    (by decide) (by decide)

/-- C5: a store whose content size exceeds the available space fails with the
quota error before committing: the artifact store (both its blobs and its
available space) is unchanged, only the staging file has been appended. -/
theorem store_blob_quota_exceeded (digestOf : Bytes → Digest) (fs : FsState)
    (name id digest : Str) (bytes : Bytes)
    (hquota : get_space_available fs.store < bytes.length) :
    store_blob_in_filesystem digestOf fs name id digest bytes
      = some (Except.error (NodeErr.custom ("Not enough space left to store artifact".toList)),
          ⟨fs.store, aupsert fs.staging (uploadDirectory name id)
             (stagingFile fs.staging (uploadDirectory name id) ++ bytes)⟩) := by
  simp only [store_blob_in_filesystem, append_to_blob_eq]
  rw [if_pos hquota]

theorem store_blob_quota_exceeded_witness :
    store_blob_in_filesystem (fun _ => []) ⟨⟨[], 0⟩, []⟩
      ("alpine".toList) ("id7".toList) ("sha256:aa".toList) [1]
      = some (Except.error (NodeErr.custom ("Not enough space left to store artifact".toList)),
          ⟨⟨[], 0⟩, aupsert [] (uploadDirectory ("alpine".toList) ("id7".toList))
             (stagingFile [] (uploadDirectory ("alpine".toList) ("id7".toList)) ++ [1])⟩) :=
  store_blob_quota_exceeded (fun _ => []) ⟨⟨[], 0⟩, []⟩
    ("alpine".toList) ("id7".toList) ("sha256:aa".toList) [1] (by decide)

/-- C1: with an empty local store and an empty provider set, when the origin
answers the blob request for `(name, hash)` with a body that verifies against
the hash, `get_blob` returns that body, the artifact store afterwards
contains it under the decoded hash, and a `provide` command for the hash is
issued after the successful fetch. -/
theorem get_blob_origin_cascade (digestOf : Bytes → Digest) (p2p : P2pEnv)
    (origin : OriginEnv) (name hash idPeer idOrigin token : Str)
    (key : Digest) (b : Bytes) (status space : Nat)
    (hdec : decodedHashGet hash = some key)
    (hprov : p2p.providers hash = [])
    (htok : origin.tokenResult = Except.ok token)
    (hblob : origin.blobResponse name hash = Except.ok (status, b))
    (hdig : digestOf b = key)
    (hspace : b.length ≤ space) :
    get_blob digestOf p2p origin ⟨⟨[], space⟩, []⟩ name hash idPeer idOrigin
      = some (Except.ok b, ⟨⟨[(key, b)], space - b.length⟩, []⟩,
          [Command.getProviders hash, Command.originToken name,
           Command.originBlob name hash, Command.provide hash])
    ∧ alookup ([(key, b)] : List (Digest × Bytes)) key = some b := by
  have hdec2 : decodedHashStore hash = some key := hdec
  have hq : ¬ (space < b.length) := by omega
  constructor
  · simp [get_blob, hdec, get_artifact, alookup, get_blob_from_network, hprov,
      get_blob_from_docker_hub, htok, get_blob_from_docker_hub_with_token, hblob,
      store_blob_in_filesystem, append_to_blob_eq, stagingFile, get_space_available,
      hq, hdec2, put_artifact, hdig, aupsert, aremove, alookup_aupsert_self]
  · simp [alookup]

theorem get_blob_origin_cascade_witness :
    get_blob (fun b => if b = [9] then [170] else [])
      ⟨fun _ => [], fun _ _ => Except.error ()⟩
      ⟨Except.ok ("tok".toList), fun _ _ => Except.ok (200, [9])⟩
      ⟨⟨[], 10⟩, []⟩ ("alpine".toList) ("sha256:aa".toList) ("ip".toList) ("io".toList)
      = some (Except.ok [9], ⟨⟨[([170], [9])], 9⟩, []⟩,
          [Command.getProviders ("sha256:aa".toList),
           Command.originToken ("alpine".toList),
           Command.originBlob ("alpine".toList) ("sha256:aa".toList),
           Command.provide ("sha256:aa".toList)])
    ∧ alookup ([([170], [9])] : List (Digest × Bytes)) [170] = some [9] :=
  get_blob_origin_cascade (fun b => if b = [9] then [170] else [])
    ⟨fun _ => [], fun _ _ => Except.error ()⟩
    ⟨Except.ok ("tok".toList), fun _ _ => Except.ok (200, [9])⟩
    ("alpine".toList) ("sha256:aa".toList) ("ip".toList) ("io".toList)
    ("tok".toList) [170] [9] 200 10
    (by decide) rfl rfl rfl (by decide) (by decide)

/-- Recognizes the `RequestArtifact` commands in a command trace. -/
def isRequestArtifact : Command → Bool
  | Command.requestArtifact _ _ => true
  | _ => false

theorem docker_hub_cmds (digestOf : Bytes → Digest) (origin : OriginEnv)
    (fs : FsState) (name hash id : Str) (r : Except NodeErr Bool)
    (fs2 : FsState) (cmds : List Command)
    (h : get_blob_from_docker_hub digestOf origin fs name hash id = some (r, fs2, cmds)) :
    cmds.filter isRequestArtifact = [] ∧ Command.originToken name ∈ cmds := by
  cases htok : origin.tokenResult with
  | error u =>
    simp only [get_blob_from_docker_hub, htok] at h
    simp at h
    obtain ⟨-, -, hc⟩ := h
    subst hc
    simp [isRequestArtifact]
  | ok token =>
    simp only [get_blob_from_docker_hub, get_blob_from_docker_hub_with_token, htok] at h
    cases hresp : origin.blobResponse name hash with
    | error u =>
      simp only [hresp] at h
      simp at h
      obtain ⟨-, -, hc⟩ := h
      subst hc
      simp [isRequestArtifact]
    | ok resp =>
      simp only [hresp] at h
      cases hst : store_blob_in_filesystem digestOf fs name id hash resp.2 with
      | none =>
        simp only [hst] at h
        exact Option.noConfusion h
      | some pr =>
        obtain ⟨rr, fsr⟩ := pr
        simp only [hst] at h
        simp at h
        obtain ⟨-, -, hc⟩ := h
        subst hc
        simp [isRequestArtifact]

theorem other_peer_cmds (digestOf : Bytes → Digest) (p2p : P2pEnv)
    (fs : FsState) (peerId : PeerId) (name hash id : Str) (stored : Bool)
    (fs2 : FsState) (cmds : List Command)
    (h : get_blob_from_other_peer digestOf p2p fs peerId name hash id
          = some (stored, fs2, cmds)) :
    cmds = [Command.requestArtifact peerId hash] := by
  cases h7 : strFrom7 hash with
  | none =>
    simp only [get_blob_from_other_peer, h7] at h
    exact Option.noConfusion h
  | some t =>
    simp only [get_blob_from_other_peer, h7] at h
    cases hresp : p2p.peerResponse peerId hash with
    | error u =>
      simp only [hresp] at h
      simp at h
      exact h.2.2.symm
    | ok artifact =>
      simp only [hresp] at h
      cases hst : store_blob_in_filesystem digestOf fs name id hash artifact with
      | none =>
        simp only [hst] at h
        exact Option.noConfusion h
      | some pr =>
        obtain ⟨rr, fsr⟩ := pr
        simp only [hst] at h
        cases rr with
        | ok st =>
          simp at h
          exact h.2.2.symm
        | error e =>
          simp at h
          exact h.2.2.symm

/-- C3: the network-retrieval step issues `RequestArtifact` against exactly
one peer — the first provider — when the provider set is non-empty, never a
second one, and goes directly to the origin (token request issued, no peer
request) when the provider set is empty. -/
theorem get_blob_from_network_single_peer (digestOf : Bytes → Digest)
    (p2p : P2pEnv) (origin : OriginEnv) (fs : FsState)
    (name hash idPeer idOrigin : Str) (r : Except NodeErr Bool)
    (fs2 : FsState) (cmds : List Command)
    (hrun : get_blob_from_network digestOf p2p origin fs name hash idPeer idOrigin
        = some (r, fs2, cmds)) :
    (∀ peer rest, p2p.providers hash = peer :: rest →
        cmds.filter isRequestArtifact = [Command.requestArtifact peer hash])
    ∧ (p2p.providers hash = [] →
        cmds.filter isRequestArtifact = [] ∧ Command.originToken name ∈ cmds) := by
  constructor
  · intro peer rest hprov
    simp only [get_blob_from_network, hprov] at hrun
    cases hop : get_blob_from_other_peer digestOf p2p fs peer name hash idPeer with
    | none =>
      simp only [hop] at hrun
      exact Option.noConfusion hrun
    | some tr =>
      obtain ⟨stored, fsP, c⟩ := tr
      have hc : c = [Command.requestArtifact peer hash] :=
        other_peer_cmds digestOf p2p fs peer name hash idPeer stored fsP c hop
      subst hc
      simp only [hop] at hrun
      cases stored with
      | true =>
        simp at hrun
        obtain ⟨-, -, hcmds⟩ := hrun
        subst hcmds
        simp [isRequestArtifact]
      | false =>
        cases hdh : get_blob_from_docker_hub digestOf origin fsP name hash idOrigin with
        | none =>
          simp only [hdh] at hrun
          exact Option.noConfusion hrun
        | some dr =>
          obtain ⟨r2, fs3, c2⟩ := dr
          simp only [hdh] at hrun
          simp at hrun
          obtain ⟨-, -, hcmds⟩ := hrun
          subst hcmds
          have hfil := (docker_hub_cmds digestOf origin fsP name hash idOrigin r2 fs3 c2 hdh).1
          simp [isRequestArtifact, List.filter_append, hfil]
  · intro hprov
    simp only [get_blob_from_network, hprov] at hrun
    cases hdh : get_blob_from_docker_hub digestOf origin fs name hash idOrigin with
    | none =>
      simp only [hdh] at hrun
      exact Option.noConfusion hrun
    | some dr =>
      obtain ⟨r2, fs3, c2⟩ := dr
      simp only [hdh] at hrun
      simp at hrun
      obtain ⟨-, -, hcmds⟩ := hrun
      subst hcmds
      have hdc := docker_hub_cmds digestOf origin fs name hash idOrigin r2 fs3 c2 hdh
      refine ⟨?_, ?_⟩
      · simp [isRequestArtifact, hdc.1]
      · exact List.mem_cons_of_mem _ hdc.2

theorem get_blob_from_network_single_peer_witness :
    ([Command.getProviders ("sha256:aa".toList),
      Command.requestArtifact 5 ("sha256:aa".toList),
      Command.originToken ("alpine".toList)].filter isRequestArtifact)
      = [Command.requestArtifact 5 ("sha256:aa".toList)] :=
  (get_blob_from_network_single_peer (fun _ => [])
    ⟨fun _ => [5], fun _ _ => Except.error ()⟩
    ⟨Except.error (), fun _ _ => Except.error ()⟩ ⟨⟨[], 0⟩, []⟩
    ("alpine".toList) ("sha256:aa".toList) ("ip".toList) ("io".toList)
    (Except.error NodeErr.transport) ⟨⟨[], 0⟩, []⟩
    [Command.getProviders ("sha256:aa".toList),
     Command.requestArtifact 5 ("sha256:aa".toList),
     Command.originToken ("alpine".toList)] rfl).1 5 [] rfl

/-- C4: whenever the single attempted peer fetch fails — the peer request
errors, or the returned bytes fail digest verification — the peer attempt
reports `false` with the artifact store unchanged (the peer's bytes are
neither stored nor served), and the network step then falls back to the
origin registry: its token request appears in the command trace of every
completed run. -/
theorem peer_failure_falls_back_to_origin (digestOf : Bytes → Digest)
    (p2p : P2pEnv) (origin : OriginEnv) (fs : FsState)
    (name hash idPeer idOrigin : Str) (peer : PeerId) (rest : List PeerId)
    (key : Digest)
    (hprov : p2p.providers hash = peer :: rest)
    (hdec : decodedHashStore hash = some key)
    (hmiss : alookup fs.store.blobs key = none)
    (hfresh : alookup fs.staging (uploadDirectory name idPeer) = none)
    (hfail : p2p.peerResponse peer hash = Except.error ()
      ∨ ∃ b, p2p.peerResponse peer hash = Except.ok b ∧ digestOf b ≠ key) :
    ∃ fsP : FsState,
      get_blob_from_other_peer digestOf p2p fs peer name hash idPeer
        = some (false, fsP, [Command.requestArtifact peer hash])
      ∧ fsP.store = fs.store
      ∧ (∀ r fs2 cmds,
          get_blob_from_network digestOf p2p origin fs name hash idPeer idOrigin
            = some (r, fs2, cmds) → Command.originToken name ∈ cmds) := by
  have h7 : ∃ t, strFrom7 hash = some t := by
    unfold decodedHashStore at hdec
    cases hs : strFrom7 hash with
    | none =>
      rw [hs] at hdec
      exact Option.noConfusion hdec
    | some t => exact ⟨t, rfl⟩
  obtain ⟨t, h7⟩ := h7
  have hop : ∃ fsP, get_blob_from_other_peer digestOf p2p fs peer name hash idPeer
      = some (false, fsP, [Command.requestArtifact peer hash]) ∧ fsP.store = fs.store := by
    cases hfail with
    | inl herr =>
      refine ⟨fs, ?_, rfl⟩
      simp only [get_blob_from_other_peer, h7, herr]
    | inr hmm =>
      obtain ⟨b, hresp, hbad⟩ := hmm
      have hstore : ∃ e, store_blob_in_filesystem digestOf fs name idPeer hash b
          = some (Except.error e,
              ⟨fs.store, aupsert fs.staging (uploadDirectory name idPeer) b⟩) := by
        by_cases hq : get_space_available fs.store < b.length
        · refine ⟨NodeErr.custom ("Not enough space left to store artifact".toList), ?_⟩
          simp [store_blob_in_filesystem, append_to_blob_eq, stagingFile, hfresh,
            get_space_available, hq]
          intro hle
          exfalso
          simp [get_space_available] at hq
          omega
        · refine ⟨NodeErr.artifact ArtErr.integrityMismatch, ?_⟩
          simp [store_blob_in_filesystem, append_to_blob_eq, stagingFile, hfresh,
            get_space_available, hq, hdec, put_artifact, hmiss, hbad]
          simp [get_space_available] at hq
          omega
      obtain ⟨e, hst⟩ := hstore
      refine ⟨⟨fs.store, aupsert fs.staging (uploadDirectory name idPeer) b⟩, ?_, rfl⟩
      simp only [get_blob_from_other_peer, h7, hresp, hst]
  obtain ⟨fsP, hopEq, hPst⟩ := hop
  refine ⟨fsP, hopEq, hPst, ?_⟩
  intro r fs2 cmds hrun
  simp only [get_blob_from_network, hprov, hopEq] at hrun
  cases hdh : get_blob_from_docker_hub digestOf origin fsP name hash idOrigin with
  | none =>
    simp only [hdh] at hrun
    exact Option.noConfusion hrun
  | some dr =>
    obtain ⟨r2, fs3, c2⟩ := dr
    simp only [hdh] at hrun
    simp at hrun
    obtain ⟨-, -, hcmds⟩ := hrun
    subst hcmds
    have hdc := docker_hub_cmds digestOf origin fsP name hash idOrigin r2 fs3 c2 hdh
    exact List.mem_cons_of_mem _ (List.mem_cons_of_mem _ hdc.2)

theorem peer_failure_falls_back_to_origin_witness :
    ∃ fsP : FsState,
      get_blob_from_other_peer (fun _ => ([] : Digest))
          ⟨fun _ => [5], fun _ _ => Except.ok [9]⟩
          ⟨⟨[], 10⟩, []⟩ 5 ("alpine".toList) ("sha256:aa".toList) ("ip".toList)
        = some (false, fsP, [Command.requestArtifact 5 ("sha256:aa".toList)])
      ∧ fsP.store = (⟨⟨[], 10⟩, []⟩ : FsState).store
      ∧ (∀ r fs2 cmds,
          get_blob_from_network (fun _ => ([] : Digest))
              ⟨fun _ => [5], fun _ _ => Except.ok [9]⟩
              ⟨Except.error (), fun _ _ => Except.error ()⟩ ⟨⟨[], 10⟩, []⟩
              ("alpine".toList) ("sha256:aa".toList) ("ip".toList) ("io".toList)
            = some (r, fs2, cmds) → Command.originToken ("alpine".toList) ∈ cmds) :=
  peer_failure_falls_back_to_origin (fun _ => ([] : Digest))
    ⟨fun _ => [5], fun _ _ => Except.ok [9]⟩
    ⟨Except.error (), fun _ _ => Except.error ()⟩ ⟨⟨[], 10⟩, []⟩
    ("alpine".toList) ("sha256:aa".toList) ("ip".toList) ("io".toList) 5 [] [170]
    rfl (by decide) rfl rfl (Or.inr ⟨[9], rfl, by decide⟩)

/-- C6, counterexample: on a quota-exceeded failure the staging location is
not discarded — after the failed call the upload directory's data file still
holds the appended bytes, so the claim that every failing path discards the
staging location fails. -/
theorem store_blob_staging_kept_cex :
    store_blob_in_filesystem (fun _ => ([] : Digest)) ⟨⟨[], 0⟩, []⟩
      ("alpine".toList) ("u1".toList) ("sha256:aa".toList) [1]
      = some (Except.error (NodeErr.custom ("Not enough space left to store artifact".toList)),
          ⟨⟨[], 0⟩, [(uploadDirectory ("alpine".toList) ("u1".toList), [1])]⟩) := by
  simp only [store_blob_in_filesystem, append_to_blob_eq]
  rfl

/-- C6, amended: on every failing path of the store operation nothing becomes
visible to readers — the artifact store is unchanged, so nothing appears
under the requested hash — but the staging data file is not discarded: it
still holds the appended bytes; the staging entry is removed only on the
success path, where content is promoted into the store. -/
theorem store_blob_failure_keeps_staging (digestOf : Bytes → Digest)
    (fs : FsState) (name id digest : Str) (bytes : Bytes)
    (r : Except NodeErr Bool) (fs2 : FsState)
    (hrun : store_blob_in_filesystem digestOf fs name id digest bytes = some (r, fs2)) :
    ((∃ e, r = Except.error e) →
        fs2.store = fs.store
        ∧ alookup fs2.staging (uploadDirectory name id)
            = some (stagingFile fs.staging (uploadDirectory name id) ++ bytes))
    ∧ (∀ stored, r = Except.ok stored →
        alookup fs2.staging (uploadDirectory name id) = none) := by
  simp only [store_blob_in_filesystem, append_to_blob_eq] at hrun
  by_cases hq : get_space_available fs.store < bytes.length
  · rw [if_pos hq] at hrun
    simp at hrun
    obtain ⟨hr, hfs⟩ := hrun
    subst hr
    subst hfs
    refine ⟨fun _ => ⟨rfl, alookup_aupsert_self _ _ _⟩, ?_⟩
    intro stored hcontra
    exact Except.noConfusion hcontra
  · rw [if_neg hq] at hrun
    cases hdec : decodedHashStore digest with
    | none =>
      simp only [hdec] at hrun
      exact Option.noConfusion hrun
    | some key =>
      simp only [hdec] at hrun
      cases hput : put_artifact digestOf fs.store key
          (stagingFile fs.staging (uploadDirectory name id) ++ bytes) with
      | error e =>
        simp only [hput] at hrun
        simp at hrun
        obtain ⟨hr, hfs⟩ := hrun
        subst hr
        subst hfs
        refine ⟨fun _ => ⟨rfl, alookup_aupsert_self _ _ _⟩, ?_⟩
        intro stored hcontra
        exact Except.noConfusion hcontra
      | ok pr =>
        obtain ⟨pushResult, st2⟩ := pr
        simp only [hput] at hrun
        simp at hrun
        obtain ⟨hr, hfs⟩ := hrun
        subst hr
        subst hfs
        refine ⟨?_, ?_⟩
        · rintro ⟨e, hcontra⟩
          exact Except.noConfusion hcontra
        · intro stored _
          exact alookup_aremove_self _ _

theorem store_blob_failure_keeps_staging_witness :
    ((∃ e, (Except.error (NodeErr.custom ("Not enough space left to store artifact".toList))
        : Except NodeErr Bool) = Except.error e) →
        (⟨⟨[], 0⟩, [(uploadDirectory ("alpine".toList) ("u2".toList), [1])]⟩ : FsState).store
          = (⟨⟨[], 0⟩, []⟩ : FsState).store
        ∧ alookup (⟨⟨[], 0⟩, [(uploadDirectory ("alpine".toList) ("u2".toList), [1])]⟩
              : FsState).staging (uploadDirectory ("alpine".toList) ("u2".toList))
            = some (stagingFile ([] : List (Str × Bytes))
                (uploadDirectory ("alpine".toList) ("u2".toList)) ++ [1]))
    ∧ (∀ stored, (Except.error (NodeErr.custom ("Not enough space left to store artifact".toList))
          : Except NodeErr Bool) = Except.ok stored →
        alookup (⟨⟨[], 0⟩, [(uploadDirectory ("alpine".toList) ("u2".toList), [1])]⟩
            : FsState).staging (uploadDirectory ("alpine".toList) ("u2".toList)) = none) :=
  store_blob_failure_keeps_staging (fun _ => ([] : Digest)) ⟨⟨[], 0⟩, []⟩
    ("alpine".toList) ("u2".toList) ("sha256:aa".toList) [1]
    (Except.error (NodeErr.custom ("Not enough space left to store artifact".toList)))
    ⟨⟨[], 0⟩, [(uploadDirectory ("alpine".toList) ("u2".toList), [1])]⟩
    (by simp only [store_blob_in_filesystem, append_to_blob_eq]; rfl)

/-- C7, counterexample: the origin blob fetch never inspects the HTTP status;
with a non-2xx (401) reply whose body passes digest verification, the fetch
succeeds, the body is stored as the artifact and no unauthorized, not-found
or I/O error is produced — so the claim that a non-2xx response always maps
to such an error and its body is never stored fails. -/
theorem origin_non2xx_stored_cex :
    get_blob_from_docker_hub_with_token (fun b => if b = [9] then ([170] : Digest) else [])
      ⟨Except.ok ("tok".toList), fun _ _ => Except.ok (401, [9])⟩
      ⟨⟨[], 10⟩, []⟩ ("alpine".toList) ("sha256:aa".toList) ("io".toList) ("tok".toList)
      = some (Except.ok true, ⟨⟨[([170], [9])], 9⟩, []⟩,
          [Command.originBlob ("alpine".toList) ("sha256:aa".toList)]) := by
  simp only [get_blob_from_docker_hub_with_token, store_blob_in_filesystem, append_to_blob_eq]
  rfl

/-- C7, amended: a transport failure of the origin blob request yields an
error with the state unchanged, while the HTTP status of a received origin
reply is never inspected — the fetch behaves identically for any two
statuses with the same body, so a non-2xx reply is not mapped to an
unauthorized or not-found error, and its body can be stored and served when
it passes the store's checks. -/
theorem origin_fetch_status_ignored (digestOf : Bytes → Digest)
    (origin1 origin2 : OriginEnv) (fs : FsState) (name hash id token : Str)
    (s1 s2 : Nat) (body : Bytes) :
    (origin1.blobResponse name hash = Except.error () →
        get_blob_from_docker_hub_with_token digestOf origin1 fs name hash id token
          = some (Except.error NodeErr.transport, fs, [Command.originBlob name hash]))
    ∧ (origin1.blobResponse name hash = Except.ok (s1, body) →
        origin2.blobResponse name hash = Except.ok (s2, body) →
        get_blob_from_docker_hub_with_token digestOf origin1 fs name hash id token
          = get_blob_from_docker_hub_with_token digestOf origin2 fs name hash id token) := by
  constructor
  · intro h
    simp [get_blob_from_docker_hub_with_token, h]
  · intro h1 h2
    simp only [get_blob_from_docker_hub_with_token, h1, h2]

theorem origin_fetch_status_ignored_witness :
    get_blob_from_docker_hub_with_token (fun _ => ([] : Digest))
      ⟨Except.ok ("tok".toList), fun _ _ => Except.ok (401, [9])⟩ ⟨⟨[], 10⟩, []⟩
      ("alpine".toList) ("sha256:aa".toList) ("io".toList) ("tok".toList)
      = get_blob_from_docker_hub_with_token (fun _ => ([] : Digest))
        ⟨Except.ok ("tok".toList), fun _ _ => Except.ok (200, [9])⟩ ⟨⟨[], 10⟩, []⟩
        ("alpine".toList) ("sha256:aa".toList) ("io".toList) ("tok".toList) :=
  (origin_fetch_status_ignored (fun _ => ([] : Digest))
    ⟨Except.ok ("tok".toList), fun _ _ => Except.ok (401, [9])⟩
    ⟨Except.ok ("tok".toList), fun _ _ => Except.ok (200, [9])⟩ ⟨⟨[], 10⟩, []⟩
    ("alpine".toList) ("sha256:aa".toList) ("io".toList) ("tok".toList) 401 200 [9]).2 rfl rfl

theorem mem_addNodeToPartialView (v : List PeerId) (p q : PeerId) (h : p ∈ v) :
    p ∈ addNodeToPartialView v q := by
  unfold addNodeToPartialView
  split
  · exact h
  · exact List.mem_cons_of_mem _ h

theorem self_mem_addNodeToPartialView (v : List PeerId) (p : PeerId) :
    p ∈ addNodeToPartialView v p := by
  unfold addNodeToPartialView
  split
  · assumption
  · exact List.mem_cons_self _ _

theorem mem_discovered_foldl (l : List (PeerId × Nat)) : ∀ v p, p ∈ v →
    p ∈ l.foldl (fun w pa => addNodeToPartialView w pa.1) v := by
  induction l with
  | nil =>
    intro v p h
    exact h
  | cons hd tl ih =>
    intro v p h
    exact ih _ _ (mem_addNodeToPartialView _ _ _ h)

theorem mem_discovered_added (l : List (PeerId × Nat)) : ∀ v pa, pa ∈ l →
    pa.1 ∈ l.foldl (fun w q => addNodeToPartialView w q.1) v := by
  induction l with
  | nil =>
    intro v pa h
    cases h
  | cons hd tl ih =>
    intro v pa h
    simp only [List.foldl_cons]
    cases h with
    | head => exact mem_discovered_foldl tl _ _ (self_mem_addNodeToPartialView v hd.1)
    | tail _ htl => exact ih _ _ htl

theorem expired_foldl_keeps_live (hasNode : PeerId → Bool) (l : List (PeerId × Nat)) :
    ∀ v p, hasNode p = true → p ∈ v →
    p ∈ l.foldl (fun w pa =>
        if ¬ hasNode pa.1 then removeNodeFromPartialView w pa.1 else w) v := by
  induction l with
  | nil =>
    intro v p _ h
    exact h
  | cons hd tl ih =>
    intro v p hp h
    simp only [List.foldl_cons]
    apply ih _ _ hp
    by_cases hh : hasNode hd.1 = true
    · simp [hh, h]
    · have hne : p ≠ hd.1 := by
        intro he
        rw [he] at hp
        exact hh hp
      simp [hh, removeNodeFromPartialView, List.mem_filter, h, hne]

/-- C9: mdns discovery never removes a live peer from the broadcast partial
view — on an expiry event a peer the mdns behaviour still knows stays in the
partial view, a peer that was removed must no longer be known, and every
peer of a discovery event is added to the partial view. -/
theorem mdns_discovery_keeps_live_peers (hasNode : PeerId → Bool)
    (st : RecipeBehaviour) (expiredL discoveredL : List (PeerId × Nat)) :
    (∀ p, hasNode p = true → p ∈ st.view →
        p ∈ (inject_event hasNode st (MdnsEvent.expired expiredL)).view)
    ∧ (∀ p, p ∈ st.view →
        p ∉ (inject_event hasNode st (MdnsEvent.expired expiredL)).view →
        hasNode p = false)
    ∧ (∀ pa, pa ∈ discoveredL →
        pa.1 ∈ (inject_event hasNode st (MdnsEvent.discovered discoveredL)).view) := by
  refine ⟨?_, ?_, ?_⟩
  · intro p hp h
    exact expired_foldl_keeps_live hasNode expiredL st.view p hp h
  · intro p h hnot
    cases hcase : hasNode p with
    | false => rfl
    | true =>
      exact absurd (expired_foldl_keeps_live hasNode expiredL st.view p hcase h) hnot
  · intro pa hpa
    exact mem_discovered_added discoveredL st.view pa hpa

theorem mdns_discovery_keeps_live_peers_witness :
    1 ∈ (inject_event (fun p => p == 1) ⟨[1, 2]⟩ (MdnsEvent.expired [(1, 0)])).view :=
  (mdns_discovery_keeps_live_peers (fun p => p == 1) ⟨[1, 2]⟩ [(1, 0)] []).1 1
    rfl (by decide)

end Pyrsia
